import Mathlib

/-!
Shallow embedding of qa/setup_packages.py.

The Python module defines a small class hierarchy (PckgVer, BasePackage,
PlainPackage, CudaPackage, CudaHttpPackage) plus module-level query helpers
(cal_num_of_configs, for_all_pckg, get_remove_string, get_install_string).
Pure functions are translated to Lean functions; code that can raise a Python
exception is translated into Except String, with the error string naming the
Python exception kind (ValueError for int() failure, KeyError for a missing
dict key, IndexError for list indexing).  External collaborators (the running
interpreter version, the pip platform-tag list, and the HTTP HEAD probe) are
passed in an Env record, as the spec describes them as external inputs.
-/

/-! ### String helpers, written structurally over character lists so that the
    kernel can evaluate them on concrete inputs. -/

/-- Convert a run of decimal digit characters to a number; none models a
    Python ValueError (empty string or non-digit character). -/
def natOfCharsAux : Option Nat → List Char → Option Nat
  | acc, [] => acc
  | acc, c :: rest =>
    if c.isDigit then natOfCharsAux (some ((acc.getD 0) * 10 + (c.toNat - 48))) rest
    else none

/-- All-digit string contents to Nat, none on empty input or a non-digit. -/
def natOfChars (l : List Char) : Option Nat := natOfCharsAux none l

/-- Models Python int(s) on version-key strings: optional sign followed by
    decimal digits; none models the ValueError int raises otherwise. -/
def pyInt (s : String) : Option Int :=
  match s.data with
  | '-' :: rest => (natOfChars rest).map (fun n => -(n : Int))
  | '+' :: rest => (natOfChars rest).map (fun n => (n : Int))
  | l => (natOfChars l).map (fun n => (n : Int))

/-- The integer value of a key string, defaulting to 0; only used where
    conversion is known (or assumed by a hypothesis) to succeed. -/
def intValD (s : String) : Int := (pyInt s).getD 0

/-- Split a character list on dots, as version strings are split into
    components. -/
def splitDots : List Char → List (List Char)
  | [] => [[]]
  | c :: rest =>
    if c = '.' then [] :: splitDots rest
    else
      match splitDots rest with
      | [] => [[c]]
      | g :: gs => (c :: g) :: gs

/-- Models pip packaging parse on the plain numeric dotted version strings the
    program compares (interpreter versions such as 3.7): the list of numeric
    components. -/
def verList (s : String) : List Nat :=
  (splitDots s.data).map (fun g => (natOfChars g).getD 0)

/-- Component-wise version comparison; a shorter component list is padded with
    zeros, so 3.7 and 3.7.0 compare equal, matching release-tuple comparison
    of the packaging library on numeric versions. -/
def verLe : List Nat → List Nat → Bool
  | [], _ => true
  | x :: xs, [] => x == 0 && verLe xs []
  | x :: xs, y :: ys => if x < y then true else if y < x then false else verLe xs ys

/-- Replace every occurrence of a nonempty pattern, fuelled by the input
    length so the recursion is structural; models Python placeholder
    substitution (str.format with one known key, and str.replace). -/
def replaceAux (pat repl : List Char) : Nat → List Char → List Char
  | _, [] => []
  | 0, l => l
  | fuel + 1, c :: rest =>
    if pat.isPrefixOf (c :: rest) && !pat.isEmpty then
      repl ++ replaceAux pat repl fuel (List.drop pat.length (c :: rest))
    else c :: replaceAux pat repl fuel rest

/-- String-level placeholder replacement built on replaceAux. -/
def strReplace (s pat repl : String) : String :=
  String.mk (replaceAux pat.data repl.data s.data.length s.data)

/-- Python " ".join. -/
def joinSpace : List String → String
  | [] => ""
  | [s] => s
  | s :: rest => s ++ " " ++ joinSpace rest

/-- Python truthiness of a string: the empty string is falsy. -/
def strTruthy (s : String) : Bool := !s.data.isEmpty

/-! ### PckgVer: a version string with optional interpreter-version bounds. -/

/-- PckgVer: holds a version string with an optional minimum and maximum
    supporting interpreter version (the Python docstring: if a bound is empty
    there is no bound on that side). -/
structure PckgVer where
  ver : String
  python_min_ver : Option String := none
  python_max_ver : Option String := none
deriving DecidableEq

/-- PckgVer truthiness: true iff (no lower bound, or it is empty, or the
    current interpreter version is at least it) and (no upper bound, or it is
    empty, or the current interpreter version is at most it).  The current
    interpreter version py is the parsed major.minor pair supplied by the
    interpreter-version probe. -/
def PckgVer.toBool (py : List Nat) (v : PckgVer) : Bool :=
  (match v.python_min_ver with
   | none => true
   | some s => !strTruthy s || verLe (verList s) py) &&
  (match v.python_max_ver with
   | none => true
   | some s => !strTruthy s || verLe py (verList s))

/-- PckgVer rendering: the held version string when the bounds admit the
    current interpreter, otherwise the empty string. -/
def PckgVer.render (py : List Nat) (v : PckgVer) : String :=
  if v.toBool py then v.ver else ""

/-- A versions-list entry is either a plain string or a PckgVer object. -/
inductive VerEntry where
  | str (s : String)
  | pv (v : PckgVer)
deriving DecidableEq

/-- Python truthiness of a versions-list entry. -/
def VerEntry.toBool (py : List Nat) : VerEntry → Bool
  | .str s => strTruthy s
  | .pv v => v.toBool py

/-- Python str of a versions-list entry (a PckgVer renders via its bounds). -/
def VerEntry.toStr (py : List Nat) : VerEntry → String
  | .str s => s
  | .pv v => v.render py

/-- BasePackage.filter_versions: keep the truthy entries and stringify them. -/
def filter_versions (py : List Nat) (versions : List VerEntry) : List String :=
  (versions.filter (VerEntry.toBool py)).map (VerEntry.toStr py)

/-! ### The external environment. -/

/-- External collaborators: the parsed interpreter version, the pip platform
    tags (already filtered of wildcard ABI and platform, and stringified), and
    the HTTP HEAD probe (some url when the request succeeds, none when it
    fails and test_request returns None). -/
structure Env where
  py : List Nat
  tags : List String
  testRequest : String → Option String

/-! ### The package descriptors. -/

/-- The three descriptor variants: PlainPackage holds a flat versions list,
    CudaPackage a dict from cuda-version key to versions list, and
    CudaHttpPackage a dict from cuda-version key to URL templates.  The name
    stored is the one resolved by the constructor (defaulting to the key). -/
inductive Package where
  | plain (key : String) (versions : List VerEntry) (name : String)
  | cuda (key : String) (versions : List (String × List VerEntry)) (name : String)
  | cudaHttp (key : String) (versions : List (String × List String)) (name : String)
deriving DecidableEq

/-- The query key of a descriptor. -/
def Package.key : Package → String
  | .plain k _ _ => k
  | .cuda k _ _ => k
  | .cudaHttp k _ _ => k

/-- Comparison of key strings by integer value, used by the sorted() call in
    max_cuda_version. -/
abbrev intKeyLe (a b : String) : Prop := intValD a ≤ intValD b

instance : DecidableRel intKeyLe :=
  fun a b => inferInstanceAs (Decidable (intValD a ≤ intValD b))

instance : IsTotal String intKeyLe := ⟨fun a b => le_total (intValD a) (intValD b)⟩

instance : IsTrans String intKeyLe := ⟨fun _ _ _ h h2 => le_trans h h2⟩

/-- Conversion of every key to an integer, none as soon as one fails; models
    the int() calls performed by sorted(keys, key=int). -/
def pyIntList : List String → Option (List Int)
  | [] => some []
  | a :: t =>
    match pyInt a with
    | none => none
    | some x =>
      match pyIntList t with
      | none => none
      | some v => some (x :: v)

/-- CudaPackage.max_cuda_version: iterate over the dict keys sorted by their
    integer value, remembering every key whose integer value is at most the
    requested one; the final remembered key (the largest qualifying one) is
    returned, None when no key qualifies.  int() failure on a key (when there
    is any key) or on the selector (when the loop runs) is a ValueError. -/
def max_cuda_version {α : Type} (versions : List (String × α)) (cuda_version : String) :
    Except String (Option String) :=
  let keys := versions.map Prod.fst
  match pyIntList keys with
  | none => .error "ValueError"
  | some _ =>
    match keys with
    | [] => .ok none
    | _ :: _ =>
      match pyInt cuda_version with
      | none => .error "ValueError"
      | some c =>
        .ok ((List.insertionSort intKeyLe keys).foldl
          (fun acc ver => if intValD ver ≤ c then some ver else acc) none)

/-- Python str(x) for the optional resolved cuda key: None prints as None. -/
def optCudaStr : Option String → String
  | none => "None"
  | some s => s

/-- get_name: a PlainPackage returns its stored name unchanged; the cuda
    variants resolve the selector through max_cuda_version and substitute the
    result for the cuda_v placeholder in the name template (str.format is
    modelled as placeholder replacement). -/
def Package.get_name (pkg : Package) (cuda_version : String) : Except String String :=
  match pkg with
  | .plain _ _ name => .ok name
  | .cuda _ versions name =>
    (max_cuda_version versions cuda_version).map
      (fun r => strReplace name "{cuda_v}" (optCudaStr r))
  | .cudaHttp _ versions name =>
    (max_cuda_version versions cuda_version).map
      (fun r => strReplace name "{cuda_v}" (optCudaStr r))

/-- The probing loop of CudaHttpPackage.get_pyvers_name: substitute each
    platform tag into the URL template and return the first URL the HEAD
    probe accepts, the empty string when none is accepted. -/
def pyversProbe (env : Env) (url : String) (cuda_version : String) : List String → String
  | [] => ""
  | tag :: rest =>
    match env.testRequest (strReplace (strReplace url "{platform}" tag) "{cuda_v}" cuda_version) with
    | some r => r
    | none => pyversProbe env url cuda_version rest

/-- CudaHttpPackage.get_pyvers_name over the environment's tag list. -/
def get_pyvers_name (env : Env) (url : String) (cuda_version : String) : String :=
  pyversProbe env url cuda_version env.tags

/-- get_all_versions: PlainPackage filters its flat list; CudaPackage resolves
    the selector, looks the resolved key up in its dict (a None result is not
    a key: KeyError) and filters that bucket; CudaHttpPackage probes each URL
    template of the bucket and keeps the successfully resolved URLs. -/
def Package.get_all_versions (env : Env) (pkg : Package) (cuda_version : String) :
    Except String (List String) :=
  match pkg with
  | .plain _ versions _ => .ok (filter_versions env.py versions)
  | .cuda _ versions _ =>
    match max_cuda_version versions cuda_version with
    | .error e => .error e
    | .ok none => .error "KeyError"
    | .ok (some k) =>
      match versions.lookup k with
      | none => .error "KeyError"
      | some vs => .ok (filter_versions env.py vs)
  | .cudaHttp _ versions _ =>
    match max_cuda_version versions cuda_version with
    | .error e => .error e
    | .ok none => .error "KeyError"
    | .ok (some k) =>
      match versions.lookup k with
      | none => .error "KeyError"
      | some urls => .ok ((urls.map (fun v => get_pyvers_name env v k)).filter strTruthy)

/-- BasePackage.get_num_of_version: the length of get_all_versions. -/
def Package.get_num_of_version (env : Env) (pkg : Package) (cuda_version : String) :
    Except String Nat :=
  (pkg.get_all_versions env cuda_version).map List.length

/-- BasePackage.clamp_index: an index below 0 or at least the number of
    versions is reset to 0. -/
def Package.clamp_index (env : Env) (pkg : Package) (idx : Int) (cuda_version : String) :
    Except String Int :=
  (pkg.get_num_of_version env cuda_version).map
    (fun n => if idx < 0 ∨ (n : Int) ≤ idx then 0 else idx)

/-- BasePackage.get_version: clamp the index, then index into
    get_all_versions; indexing an empty list is an IndexError. -/
def Package.get_version (env : Env) (pkg : Package) (idx : Int) (cuda_version : String) :
    Except String String :=
  match pkg.clamp_index env idx cuda_version with
  | .error e => .error e
  | .ok i =>
    match pkg.get_all_versions env cuda_version with
    | .error e => .error e
    | .ok vs =>
      match vs.get? i.toNat with
      | some v => .ok v
      | none => .error "IndexError"

/-- get_install_string: name==version for the plain and cuda variants; the
    http variant (which overrides it) returns the resolved URL alone. -/
def Package.get_install_string (env : Env) (pkg : Package) (idx : Int) (cuda_version : String) :
    Except String String :=
  match pkg with
  | .cudaHttp _ _ _ => pkg.get_version env idx cuda_version
  | _ =>
    match pkg.get_name cuda_version with
    | .error e => .error e
    | .ok n =>
      match pkg.get_version env idx cuda_version with
      | .error e => .error e
      | .ok v => .ok (n ++ "==" ++ v)

/-! ### Constructor-time checking (BasePackage / CudaPackage init). -/

/-- Name defaulting in BasePackage init: a missing or empty name argument
    falls back to the key. -/
def defaultName (key : String) (name : Option String) : String :=
  match name with
  | none => key
  | some s => if strTruthy s then s else key

/-- The versions argument handed to the CudaPackage constructor: either a
    flat list (not a mapping) or a dict. -/
inductive CudaVersionsArg where
  | flat (l : List VerEntry)
  | dict (d : List (String × List VerEntry))

/-- The versions argument handed to the CudaHttpPackage constructor. -/
inductive HttpVersionsArg where
  | flat (l : List String)
  | dict (d : List (String × List String))

/-- The TypeError message raised by the CudaPackage constructor. -/
def typeErrMsg : String :=
  "versions argument should by dict type [cuda_version : list_of_versions"

/-- PlainPackage construction: stores key, versions and the defaulted name. -/
def mkPlainPackage (key : String) (versions : List VerEntry) (name : Option String) : Package :=
  .plain key versions (defaultName key name)

/-- CudaPackage construction: raises TypeError when the versions argument is
    not a dict, otherwise stores key, dict and the defaulted name. -/
def mkCudaPackage (key : String) (versions : CudaVersionsArg) (name : Option String) :
    Except String Package :=
  match versions with
  | .dict d => .ok (.cuda key d (defaultName key name))
  | .flat _ => .error typeErrMsg

/-- CudaHttpPackage construction: same dict check, inherited from
    CudaPackage. -/
def mkCudaHttpPackage (key : String) (versions : HttpVersionsArg) (name : Option String) :
    Except String Package :=
  match versions with
  | .dict d => .ok (.cudaHttp key d (defaultName key name))
  | .flat _ => .error typeErrMsg

/-! ### The static catalog. -/

/-- The all_packages table of the module. -/
def all_packages : List Package :=
  [ mkPlainPackage "opencv-python" [.str "4.2.0.32"] none,
    Package.cuda "cupy"
      [("90", [.str "7.3.0"]), ("100", [.str "7.3.0"])] "cupy-cuda{cuda_v}",
    Package.cuda "mxnet"
      [("90", [.str "1.6.0"]), ("100", [.str "1.5.1"])] "mxnet-cu{cuda_v}",
    Package.cuda "tensorflow-gpu"
      [("90", [.pv ⟨"1.12.0", none, some "3.7"⟩]),
       ("100", [.pv ⟨"1.15.2", none, some "3.7"⟩, .pv ⟨"2.1.0", none, some "3.7"⟩,
                .str "2.2.0"])] "tensorflow-gpu",
    Package.cudaHttp "torch"
      [("90", ["http://download.pytorch.org/whl/cu{cuda_v}/torch-1.1.0-{platform}.whl"]),
       ("100", ["http://download.pytorch.org/whl/cu{cuda_v}/torch-1.4.0+cu{cuda_v}-{platform}.whl"])]
      "torch",
    Package.cudaHttp "torchvision"
      [("90", ["https://download.pytorch.org/whl/cu{cuda_v}/torchvision-0.3.0-{platform}.whl"]),
       ("100", ["https://download.pytorch.org/whl/cu{cuda_v}/torchvision-0.5.0+cu{cuda_v}-{platform}.whl"])]
      "torchvision",
    Package.cudaHttp "paddle"
      [("90", ["https://paddle-wheel.bj.bcebos.com/gcc54/latest-gpu-cuda9-cudnn7-openblas/paddlepaddle_gpu-latest-{platform}.whl"]),
       ("100", ["https://paddle-wheel.bj.bcebos.com/gcc54/latest-gpu-cuda10-cudnn7-openblas/paddlepaddle_gpu-latest-{platform}.whl"])]
      "paddle" ]

/-! ### Module-level query helpers. -/

/-- The loop body of for_all_pckg: apply the function to every catalog
    descriptor whose key is requested, in catalog order, propagating any
    exception. -/
def forAllPckgMain (packages : List String) (f : Package → Except String String) :
    List Package → Except String (List String)
  | [] => .ok []
  | p :: rest =>
    if packages.contains p.key then
      match f p with
      | .error e => .error e
      | .ok v =>
        match forAllPckgMain packages f rest with
        | .error e => .error e
        | .ok vs => .ok (v :: vs)
    else forAllPckgMain packages f rest

/-- for_all_pckg: the per-descriptor results followed by the requested keys
    that match no catalog key (passthrough keys), verbatim. -/
def for_all_pckg (catalog : List Package) (packages : List String)
    (f : Package → Except String String) : Except String (List String) :=
  match forAllPckgMain packages f catalog with
  | .error e => .error e
  | .ok ret => .ok (ret ++ packages.filter (fun v => !((catalog.map Package.key).contains v)))

/-- The accumulator loop of cal_num_of_configs. -/
def calNumAux (env : Env) (packages : List String) (cuda_version : String) :
    Nat → List Package → Except String Nat
  | ret, [] => .ok ret
  | ret, p :: rest =>
    if packages.contains p.key then
      match p.get_num_of_version env cuda_version with
      | .error e => .error e
      | .ok n => calNumAux env packages cuda_version (ret * n) rest
    else calNumAux env packages cuda_version ret rest

/-- cal_num_of_configs: the product, over the catalog descriptors whose key is
    requested, of their number of versions, starting from 1. -/
def cal_num_of_configs (env : Env) (catalog : List Package) (packages : List String)
    (cuda_version : String) : Except String Nat :=
  calNumAux env packages cuda_version 1 catalog

/-- get_remove_string: the space-joined resolved names of the requested
    descriptors plus the passthrough keys. -/
def get_remove_string (catalog : List Package) (packages : List String)
    (cuda_version : String) : Except String String :=
  (for_all_pckg catalog packages (fun p => p.get_name cuda_version)).map joinSpace

/-- get_install_string (module level): the space-joined install strings, at
    one shared index, of the requested descriptors plus the passthrough
    keys. -/
def get_install_string (env : Env) (idx : Int) (catalog : List Package)
    (packages : List String) (cuda_version : String) : Except String String :=
  (for_all_pckg catalog packages (fun p => p.get_install_string env idx cuda_version)).map
    joinSpace

/-- The value printed by the num query: cal_num_of_configs minus one. -/
def num_of_configs_query (env : Env) (catalog : List Package) (packages : List String)
    (cuda_version : String) : Except String Int :=
  (cal_num_of_configs env catalog packages cuda_version).map (fun n => (n : Int) - 1)

/-! ### Concrete data used by several scenario theorems. -/

/-- A concrete environment: interpreter 3.8, no platform tags, every HTTP
    probe failing.  None of the scenario packages below consult the tags or
    the probe. -/
def env0 : Env := ⟨[3, 8], [], fun _ => none⟩

/-- The spec scenario descriptor: a plain package foo with versions 1.0 and
    2.0. -/
def fooPkg : Package := Package.plain "foo" [.str "1.0", .str "2.0"] "foo"

/-! ### Helper lemmas. -/

/-- A successful version count comes from a successful version list of that
    length. -/
theorem get_num_of_version_ok (env : Env) (pkg : Package) (cuda : String) (n : Nat)
    (h : pkg.get_num_of_version env cuda = .ok n) :
    ∃ vs, pkg.get_all_versions env cuda = .ok vs ∧ vs.length = n := by
  unfold Package.get_num_of_version at h
  cases hvs : pkg.get_all_versions env cuda with
  | ok vs => rw [hvs] at h; exact ⟨vs, rfl, by simpa [Except.map] using h⟩
  | error e => rw [hvs] at h; simp [Except.map] at h

/-! ### C1: the clamp law for version_at. -/

/-- C1 (amended): for every descriptor variant and driver-version selector,
    when the descriptor has at least one applicable version, every integer
    index outside the valid range is clamped to 0, so version_at returns the
    same value as version_at(0) and does not fail.  (The original claim also
    covered descriptors with zero applicable versions; there get_version
    raises an IndexError, see the counterexample.) -/
theorem clamp_law_out_of_range (env : Env) (pkg : Package) (cuda : String) (n : Nat)
    (idx : Int) (hn : pkg.get_num_of_version env cuda = .ok n) (h1 : 1 ≤ n)
    (hout : idx < 0 ∨ (n : Int) ≤ idx) :
    pkg.get_version env idx cuda = pkg.get_version env 0 cuda ∧
    ∃ v, pkg.get_version env idx cuda = .ok v := by
  obtain ⟨vs, hvs, hlen⟩ := get_num_of_version_ok env pkg cuda n hn
  obtain ⟨v, vs2, rfl⟩ : ∃ v vs2, vs = v :: vs2 := by
    cases vs with
    | nil => simp at hlen; omega
    | cons v t => exact ⟨v, t, rfl⟩
  have hclampOut : pkg.clamp_index env idx cuda = .ok 0 := by
    unfold Package.clamp_index
    rw [hn]
    simp [Except.map, if_pos hout]
  have hclamp0 : pkg.clamp_index env 0 cuda = .ok 0 := by
    unfold Package.clamp_index
    rw [hn]
    have : ¬((0 : Int) < 0 ∨ (n : Int) ≤ 0) := by
      push_neg
      constructor
      · omega
      · exact_mod_cast Nat.lt_of_lt_of_le Nat.zero_lt_one h1
    simp [Except.map, if_neg this]
  unfold Package.get_version
  rw [hclampOut, hclamp0, hvs]
  exact ⟨rfl, ⟨v, rfl⟩⟩

/-- C1 witness: a plain descriptor with two versions, queried at the
    out-of-range index 7, returns the version at index 0. -/
theorem clamp_law_out_of_range_witness :
    fooPkg.get_version env0 7 "90" = fooPkg.get_version env0 0 "90" ∧
    ∃ v, fooPkg.get_version env0 7 "90" = .ok v :=
  clamp_law_out_of_range env0 fooPkg "90" 2 7 rfl (by decide) (Or.inr (by decide))

/-- C1 counterexample: a descriptor with zero applicable versions.  The claim
    says version_at never fails there; in the code clamp_index resets the
    index to 0 and get_all_versions()[0] raises an IndexError. -/
theorem version_at_empty_fails :
    (Package.plain "x" [] "x").get_version env0 5 "90" = .error "IndexError" := rfl

/-! ### C2: the single-plain-package scenario. -/

/-- C2 (amended): with the catalog containing only Plain foo with versions
    1.0 and 2.0, the count query returns 1 (total combinations minus one),
    install_at(0) is foo==1.0, and install_at(5) is also foo==1.0: the
    out-of-range index 5 is reset to 0, selecting the first version, not the
    last. -/
theorem foo_catalog_scenario :
    num_of_configs_query env0 [fooPkg] ["foo"] "90" = .ok 1 ∧
    get_install_string env0 0 [fooPkg] ["foo"] "90" = .ok "foo==1.0" ∧
    get_install_string env0 5 [fooPkg] ["foo"] "90" = .ok "foo==1.0" :=
  ⟨rfl, rfl, rfl⟩

/-- C2 counterexample: install_at(5, [foo]) evaluates to foo==1.0, which is
    not the claimed foo==2.0 (clamp_index resets an out-of-range index to 0
    rather than to count-1). -/
theorem install_at_five_not_second :
    get_install_string env0 5 [fooPkg] ["foo"] "90" = .ok "foo==1.0" ∧
    ("foo==1.0" : String) ≠ "foo==2.0" :=
  ⟨rfl, by decide⟩
/-! ### C3, C5, C8: the module-level query loops. -/

/-- When the function succeeds on every requested descriptor, the loop of
    for_all_pckg produces, in catalog order, exactly the function values on
    the catalog descriptors whose key is requested. -/
theorem forAllPckgMain_ok (packages : List String) (f : Package → Except String String) :
    ∀ catalog : List Package,
    (∀ p ∈ catalog, p.key ∈ packages → ∃ s, f p = .ok s) →
    forAllPckgMain packages f catalog =
      .ok ((catalog.filter (fun p => packages.contains p.key)).map
        (fun p => (f p).toOption.getD "")) := by
  intro catalog
  induction catalog with
  | nil => intro _; rfl
  | cons p rest ih =>
    intro h
    have hrest := ih (fun q hq hm => h q (List.mem_cons_of_mem p hq) hm)
    by_cases hc : p.key ∈ packages
    · obtain ⟨s, hs⟩ := h p (List.mem_cons_self p rest) hc
      simp [forAllPckgMain, hc, hs, hrest, Except.toOption]
    · simp [forAllPckgMain, hc, hrest]

/-- C3: the install-at query applies one shared raw index to every requested
    catalog descriptor: whenever each requested descriptor's install string at
    that index succeeds, the output is the space-join, in catalog order, of
    those install strings (each descriptor clamping the index against its own
    count inside get_install_string), followed by the passthrough keys.  No
    mixed-radix decomposition of the index takes place. -/
theorem install_same_raw_index (env : Env) (idx : Int) (catalog : List Package)
    (packages : List String) (cuda : String)
    (h : ∀ p ∈ catalog, p.key ∈ packages →
      ∃ s, p.get_install_string env idx cuda = .ok s) :
    get_install_string env idx catalog packages cuda =
      .ok (joinSpace
        (((catalog.filter (fun p => packages.contains p.key)).map
           (fun p => (p.get_install_string env idx cuda).toOption.getD ""))
         ++ packages.filter (fun v => !((catalog.map Package.key).contains v)))) := by
  unfold get_install_string for_all_pckg
  rw [forAllPckgMain_ok packages _ catalog h]
  rfl

/-- C3 witness: catalog with just the foo package, requested keys foo and the
    passthrough key baz, shared index 5. -/
theorem install_same_raw_index_witness :
    get_install_string env0 5 [fooPkg] ["foo", "baz"] "90" =
      .ok (joinSpace
        ((([fooPkg].filter (fun p => (["foo", "baz"] : List String).contains p.key)).map
           (fun p => (p.get_install_string env0 5 "90").toOption.getD ""))
         ++ (["foo", "baz"] : List String).filter
              (fun v => !(([fooPkg].map Package.key).contains v)))) :=
  install_same_raw_index env0 5 [fooPkg] ["foo", "baz"] "90"
    (by
      intro p hp hc
      refine ⟨"foo==1.0", ?_⟩
      simp only [List.mem_singleton] at hp
      subst hp
      rfl)

/-- The accumulator loop of cal_num_of_configs multiplies the starting value
    by the version counts of the requested descriptors. -/
theorem calNumAux_ok (env : Env) (packages : List String) (cuda : String) :
    ∀ (catalog : List Package) (ret : Nat),
    (∀ p ∈ catalog, p.key ∈ packages →
      ∃ n, p.get_num_of_version env cuda = .ok n) →
    calNumAux env packages cuda ret catalog =
      .ok (ret * ((catalog.filter (fun p => packages.contains p.key)).map
        (fun p => (p.get_num_of_version env cuda).toOption.getD 0)).prod) := by
  intro catalog
  induction catalog with
  | nil => intro ret _; simp [calNumAux]
  | cons p rest ih =>
    intro ret h
    by_cases hc : p.key ∈ packages
    · obtain ⟨n, hn⟩ := h p (List.mem_cons_self p rest) hc
      have hrest := ih (ret * n) (fun q hq hm => h q (List.mem_cons_of_mem p hq) hm)
      simp [calNumAux, hc, hn, hrest, Except.toOption, mul_assoc]
    · have hrest := ih ret (fun q hq hm => h q (List.mem_cons_of_mem p hq) hm)
      simp [calNumAux, hc, hrest]

/-- C5: cal_num_of_configs equals the product, over the catalog descriptors
    whose key is requested, of their version counts; unrequested descriptors
    contribute a factor of 1, and when no descriptor matches (in particular
    for an empty requested set) the result is 1. -/
theorem total_combinations_product (env : Env) (catalog : List Package)
    (packages : List String) (cuda : String)
    (h : ∀ p ∈ catalog, p.key ∈ packages →
      ∃ n, p.get_num_of_version env cuda = .ok n) :
    cal_num_of_configs env catalog packages cuda =
      .ok (((catalog.filter (fun p => packages.contains p.key)).map
        (fun p => (p.get_num_of_version env cuda).toOption.getD 0)).prod) ∧
    ((∀ p ∈ catalog, p.key ∉ packages) →
      cal_num_of_configs env catalog packages cuda = .ok 1) := by
  have hmain : cal_num_of_configs env catalog packages cuda =
      .ok ((1 : Nat) * ((catalog.filter (fun p => packages.contains p.key)).map
        (fun p => (p.get_num_of_version env cuda).toOption.getD 0)).prod) :=
    calNumAux_ok env packages cuda catalog 1 h
  rw [one_mul] at hmain
  refine ⟨hmain, fun hnone => ?_⟩
  rw [hmain]
  have hfil : catalog.filter (fun p => packages.contains p.key) = [] := by
    rw [List.filter_eq_nil_iff]
    intro p hp
    simp [hnone p hp]
  rw [hfil, List.map_nil, List.prod_nil]

/-- C5 witness: the foo catalog with requested key foo has 2 combinations,
    the length of the foo version list. -/
theorem total_combinations_product_witness :
    cal_num_of_configs env0 [fooPkg] ["foo"] "90" =
      .ok ((([fooPkg].filter (fun p => (["foo"] : List String).contains p.key)).map
        (fun p => (p.get_num_of_version env0 "90").toOption.getD 0)).prod) :=
  (total_combinations_product env0 [fooPkg] ["foo"] "90"
    (by
      intro p hp hc
      refine ⟨2, ?_⟩
      simp only [List.mem_singleton] at hp
      subst hp
      rfl)).1

/-- C8: requested keys with no catalog descriptor pass through verbatim, at
    the end of the output list, in both the remove and the install queries;
    concretely, remove and install-at-0 for requested keys foo and baz against
    the foo-only catalog. -/
theorem passthrough_keys_verbatim :
    (∀ (catalog : List Package) (packages : List String)
       (f : Package → Except String String) (l : List String),
       for_all_pckg catalog packages f = .ok l →
       ∃ m, l = m ++ packages.filter (fun v => !((catalog.map Package.key).contains v))) ∧
    get_remove_string [fooPkg] ["foo", "baz"] "90" = .ok "foo baz" ∧
    get_install_string env0 0 [fooPkg] ["foo", "baz"] "90" = .ok "foo==1.0 baz" := by
  refine ⟨?_, rfl, rfl⟩
  intro catalog packages f l hl
  unfold for_all_pckg at hl
  cases hm : forAllPckgMain packages f catalog with
  | ok m =>
    rw [hm] at hl
    exact ⟨m, (Except.ok.inj hl).symm⟩
  | error e =>
    rw [hm] at hl
    exact Except.noConfusion hl

/-- C8 witness: the remove query for foo and baz produces the list foo, baz,
    whose tail is the passthrough key baz verbatim. -/
theorem passthrough_keys_verbatim_witness :
    ∃ m, (["foo", "baz"] : List String) =
      m ++ (["foo", "baz"] : List String).filter
        (fun v => !(([fooPkg].map Package.key).contains v)) :=
  passthrough_keys_verbatim.1 [fooPkg] ["foo", "baz"]
    (fun p => p.get_name "90") ["foo", "baz"] rfl

/-! ### C4 and C10: driver-version resolution. -/

/-- When every key string converts to an integer, the conversion of the whole
    key list succeeds. -/
theorem mapM_pyInt_some : ∀ l : List String,
    (∀ k ∈ l, (pyInt k).isSome = true) → ∃ v, pyIntList l = some v := by
  intro l
  induction l with
  | nil => intro _; exact ⟨[], rfl⟩
  | cons a t ih =>
    intro h
    obtain ⟨x, hx⟩ := Option.isSome_iff_exists.mp (h a (List.mem_cons_self a t))
    obtain ⟨v, hv⟩ := ih (fun k hk => h k (List.mem_cons_of_mem a hk))
    exact ⟨x :: v, by simp [pyIntList, hx, hv]⟩

/-- The remembering fold of max_cuda_version keeps its accumulator when no
    element qualifies. -/
theorem foldl_max_none (c : Int) : ∀ (l : List String) (acc : Option String),
    (∀ x ∈ l, ¬ intValD x ≤ c) →
    l.foldl (fun acc ver => if intValD ver ≤ c then some ver else acc) acc = acc := by
  intro l
  induction l with
  | nil => intro acc _; rfl
  | cons x t ih =>
    intro acc h
    have hx := h x (List.mem_cons_self x t)
    simp only [List.foldl_cons, if_neg hx]
    exact ih acc (fun y hy => h y (List.mem_cons_of_mem x hy))

/-- On a list sorted by integer value that contains a qualifying element, the
    remembering fold returns a qualifying element of maximal integer value. -/
theorem foldl_max_spec (c : Int) : ∀ l : List String,
    l.Sorted intKeyLe →
    (∃ x ∈ l, intValD x ≤ c) →
    ∃ m, l.foldl (fun acc ver => if intValD ver ≤ c then some ver else acc) none = some m ∧
      m ∈ l ∧ intValD m ≤ c ∧ ∀ k ∈ l, intValD k ≤ c → intValD k ≤ intValD m := by
  intro l
  induction l using List.reverseRecOn with
  | nil =>
    intro _ hex
    simp at hex
  | append_singleton t x ih =>
    intro hsort hex
    obtain ⟨h1, _, h12⟩ := List.pairwise_append.mp hsort
    rw [List.foldl_append]
    by_cases hq : intValD x ≤ c
    · refine ⟨x, ?_, List.mem_append_right t (List.mem_singleton.mpr rfl), hq, ?_⟩
      · simp [if_pos hq]
      · intro k hk _
        rcases List.mem_append.mp hk with hk1 | hk2
        · exact h12 k hk1 x (List.mem_singleton.mpr rfl)
        · rw [List.mem_singleton.mp hk2]
    · obtain ⟨y, hy, hyc⟩ := hex
      have hy1 : y ∈ t := by
        rcases List.mem_append.mp hy with h | h
        · exact h
        · rw [List.mem_singleton.mp h] at hyc; exact absurd hyc hq
      obtain ⟨m, hfold, hmem, hmc, hmax⟩ := ih h1 ⟨y, hy1, hyc⟩
      refine ⟨m, ?_, List.mem_append_left [x] hmem, hmc, ?_⟩
      · simp [if_neg hq, hfold]
      · intro k hk hkc
        rcases List.mem_append.mp hk with hk1 | hk2
        · exact hmax k hk1 hkc
        · rw [List.mem_singleton.mp hk2] at hkc; exact absurd hkc hq

/-- When all keys and the selector convert to integers and some key does not
    exceed the selector, max_cuda_version returns a qualifying key of maximal
    integer value. -/
theorem max_cuda_version_found {α : Type} (versions : List (String × α)) (cuda : String)
    (hk : ∀ k ∈ versions.map Prod.fst, (pyInt k).isSome = true)
    (hc : (pyInt cuda).isSome = true)
    (hex : ∃ k ∈ versions.map Prod.fst, intValD k ≤ intValD cuda) :
    ∃ m, max_cuda_version versions cuda = .ok (some m) ∧
      m ∈ versions.map Prod.fst ∧ intValD m ≤ intValD cuda ∧
      ∀ k ∈ versions.map Prod.fst, intValD k ≤ intValD cuda → intValD k ≤ intValD m := by
  obtain ⟨ints, hints⟩ := mapM_pyInt_some (versions.map Prod.fst) hk
  obtain ⟨c, hcv⟩ := Option.isSome_iff_exists.mp hc
  have hcval : intValD cuda = c := by simp [intValD, hcv]
  rw [hcval] at hex
  have hperm := List.perm_insertionSort intKeyLe (versions.map Prod.fst)
  have hsorted := List.sorted_insertionSort intKeyLe (versions.map Prod.fst)
  obtain ⟨y, hy, hyc⟩ := hex
  obtain ⟨m, hfold, hmem, hmc, hmax⟩ :=
    foldl_max_spec c (List.insertionSort intKeyLe (versions.map Prod.fst)) hsorted
      ⟨y, hperm.mem_iff.mpr hy, hyc⟩
  have hmem2 : m ∈ versions.map Prod.fst := hperm.mem_iff.mp hmem
  refine ⟨m, ?_, hmem2, hcval ▸ hmc, ?_⟩
  · cases versions with
    | nil => exact absurd hy (List.not_mem_nil y)
    | cons q rest =>
      simp only [max_cuda_version, hints, hcv]
      rw [hfold]
      rfl
  · intro k hk2 hkc
    exact hmax k (hperm.mem_iff.mpr hk2) (hcval ▸ hkc)

/-- C4: for integer-convertible cataloged keys and an integer-convertible
    selector at least one key's value, max_cuda_version returns a cataloged
    key whose integer value is the largest one not exceeding the selector;
    in particular it maps keys 90,100 with selector 92 to 90 and with
    selector 100 to 100. -/
theorem max_driver_version_largest_not_exceeding :
    (∀ (α : Type) (versions : List (String × α)) (cuda : String),
      (∀ k ∈ versions.map Prod.fst, (pyInt k).isSome = true) →
      (pyInt cuda).isSome = true →
      (∃ k ∈ versions.map Prod.fst, intValD k ≤ intValD cuda) →
      ∃ m, max_cuda_version versions cuda = .ok (some m) ∧
        m ∈ versions.map Prod.fst ∧ intValD m ≤ intValD cuda ∧
        ∀ k ∈ versions.map Prod.fst, intValD k ≤ intValD cuda → intValD k ≤ intValD m) ∧
    max_cuda_version [("90", ([] : List VerEntry)), ("100", [])] "92" = .ok (some "90") ∧
    max_cuda_version [("90", ([] : List VerEntry)), ("100", [])] "100" = .ok (some "100") :=
  ⟨fun _ versions cuda hk hc hex => max_cuda_version_found versions cuda hk hc hex,
   rfl, rfl⟩

/-- C4 witness: the hypotheses hold for keys 90,100 with selector 92, and the
    theorem then produces the maximal qualifying key. -/
theorem max_driver_version_largest_not_exceeding_witness :
    ((∀ k ∈ ([("90", ([] : List VerEntry)), ("100", [])].map Prod.fst),
        (pyInt k).isSome = true) ∧
     (pyInt "92").isSome = true ∧
     (∃ k ∈ ([("90", ([] : List VerEntry)), ("100", [])].map Prod.fst),
        intValD k ≤ intValD "92")) ∧
    (∃ m, max_cuda_version [("90", ([] : List VerEntry)), ("100", [])] "92" = .ok (some m) ∧
      m ∈ ([("90", ([] : List VerEntry)), ("100", [])].map Prod.fst) ∧
      intValD m ≤ intValD "92" ∧
      ∀ k ∈ ([("90", ([] : List VerEntry)), ("100", [])].map Prod.fst),
        intValD k ≤ intValD "92" → intValD k ≤ intValD m) :=
  ⟨⟨by decide, by decide, by decide⟩,
   max_driver_version_largest_not_exceeding.1 (List VerEntry)
     [("90", []), ("100", [])] "92" (by decide) (by decide) (by decide)⟩

/-- C10: for a driver-keyed descriptor whose selector converts to an integer
    strictly below every cataloged key's integer value, max_cuda_version
    returns None (ok none); get_all_versions then fails with the key-lookup
    error (None is not a dict key); get_name does not fail and substitutes the
    literal text None for the cuda_v placeholder in the name template. -/
theorem unresolvable_selector (env : Env) (key : String)
    (versions : List (String × List VerEntry)) (name : String) (cuda : String)
    (hk : ∀ k ∈ versions.map Prod.fst, (pyInt k).isSome = true)
    (hc : (pyInt cuda).isSome = true)
    (hlt : ∀ k ∈ versions.map Prod.fst, intValD cuda < intValD k) :
    max_cuda_version versions cuda = .ok none ∧
    (Package.cuda key versions name).get_all_versions env cuda = .error "KeyError" ∧
    (Package.cuda key versions name).get_name cuda = .ok (strReplace name "{cuda_v}" "None") := by
  obtain ⟨ints, hints⟩ := mapM_pyInt_some (versions.map Prod.fst) hk
  obtain ⟨c, hcv⟩ := Option.isSome_iff_exists.mp hc
  have hcval : intValD cuda = c := by simp [intValD, hcv]
  have hmax : max_cuda_version versions cuda = .ok none := by
    cases versions with
    | nil => rfl
    | cons q rest =>
      simp only [max_cuda_version, hints, hcv]
      have hnone : (List.insertionSort intKeyLe ((q :: rest).map Prod.fst)).foldl
          (fun acc ver => if intValD ver ≤ c then some ver else acc) none = none := by
        apply foldl_max_none
        intro x hx
        have hx2 : x ∈ (q :: rest).map Prod.fst :=
          (List.perm_insertionSort intKeyLe _).mem_iff.mp hx
        have hgt := hlt x hx2
        rw [hcval] at hgt
        omega
      rw [hnone]
      rfl
  refine ⟨hmax, ?_, ?_⟩
  · simp only [Package.get_all_versions, hmax]
  · simp only [Package.get_name, hmax, Except.map]
    rfl

/-- C10 witness: dict keys 90 and 100 with selector 80: resolution yields
    None, the version list fails with the key-lookup error, and the name
    template bar-cu with the cuda_v placeholder renders as bar-cuNone. -/
theorem unresolvable_selector_witness :
    max_cuda_version [("90", ([] : List VerEntry)), ("100", [])] "80" = .ok none ∧
    (Package.cuda "bar" [("90", []), ("100", [])] "bar-cu{cuda_v}").get_all_versions env0 "80" =
      .error "KeyError" ∧
    (Package.cuda "bar" [("90", []), ("100", [])] "bar-cu{cuda_v}").get_name "80" =
      .ok (strReplace "bar-cu{cuda_v}" "{cuda_v}" "None") :=
  unresolvable_selector env0 "bar" [("90", []), ("100", [])] "bar-cu{cuda_v}" "80"
    (by decide) (by decide) (by decide)

/-! ### C6: VersionConstraint applicability and rendering. -/

/-- A string is Python-falsy exactly when it is empty. -/
theorem strTruthy_false_iff (s : String) : strTruthy s = false ↔ s = "" := by
  constructor
  · intro h
    apply String.ext
    unfold strTruthy at h
    cases hEmpty : s.data.isEmpty
    · rw [hEmpty] at h; exact absurd h (by decide)
    · exact List.isEmpty_iff.mp hEmpty
  · intro h; subst h; rfl

/-- C6: a PckgVer is applicable iff the current interpreter version respects
    both optional bounds (a missing or empty bound is no bound, per the
    constructor's documentation), under numeric major.minor comparison;
    render returns the stored version exactly when applicable and the empty
    string otherwise; with both bounds unset it is always applicable, and with
    an upper bound below the current interpreter version render is empty. -/
theorem version_constraint_bounds (py : List Nat) (v : PckgVer) :
    (v.toBool py = true ↔
      ((v.python_min_ver = none ∨ v.python_min_ver = some "" ∨
        ∃ s, v.python_min_ver = some s ∧ verLe (verList s) py = true) ∧
       (v.python_max_ver = none ∨ v.python_max_ver = some "" ∨
        ∃ s, v.python_max_ver = some s ∧ verLe py (verList s) = true))) ∧
    (v.render py = if v.toBool py then v.ver else "") ∧
    (v.python_min_ver = none → v.python_max_ver = none → v.toBool py = true) ∧
    (∀ s, v.python_max_ver = some s → s ≠ "" → verLe py (verList s) = false →
      v.render py = "") := by
  obtain ⟨ver, mn, mx⟩ := v
  refine ⟨?_, rfl, ?_, ?_⟩
  · cases mn <;> cases mx <;>
      simp [PckgVer.toBool, Bool.not_eq_true', strTruthy_false_iff]
  · intro h1 h2
    subst h1
    subst h2
    rfl
  · intro s hx hne hle
    subst hx
    have ht : strTruthy s = true := by
      cases hts : strTruthy s
      · exact absurd (strTruthy_false_iff s |>.mp hts) hne
      · rfl
    unfold PckgVer.render PckgVer.toBool
    simp [ht, hle]

/-- C6 witness: with both bounds absent the entry is applicable; with upper
    bound 3.7 and interpreter 3.8 it renders as the empty string. -/
theorem version_constraint_bounds_witness :
    PckgVer.toBool [3, 8] ⟨"2.2.0", none, none⟩ = true ∧
    PckgVer.render [3, 8] ⟨"1.15.2", none, some "3.7"⟩ = "" :=
  ⟨(version_constraint_bounds [3, 8] ⟨"2.2.0", none, none⟩).2.2.1 rfl rfl,
   (version_constraint_bounds [3, 8] ⟨"1.15.2", none, some "3.7"⟩).2.2.2 "3.7" rfl
     (by decide) (by decide)⟩

/-! ### C7: the install-argument format. -/

/-- An in-range nonnegative index is not clamped: get_version returns exactly
    the list element at that index. -/
theorem get_version_in_range (env : Env) (pkg : Package) (cuda : String) (idx : Int)
    (vs : List String) (v : String)
    (hvs : pkg.get_all_versions env cuda = .ok vs) (h0 : 0 ≤ idx)
    (hget : vs.get? idx.toNat = some v) :
    pkg.get_version env idx cuda = .ok v := by
  obtain ⟨hlt, -⟩ := List.get?_eq_some.mp hget
  have hnum : pkg.get_num_of_version env cuda = .ok vs.length := by
    unfold Package.get_num_of_version
    rw [hvs]
    rfl
  have hcl : pkg.clamp_index env idx cuda = .ok idx := by
    unfold Package.clamp_index
    rw [hnum]
    have hcond : ¬(idx < 0 ∨ (vs.length : Int) ≤ idx) := by
      push_neg
      constructor
      · omega
      · omega
    simp [Except.map, if_neg hcond]
  simp only [Package.get_version, hcl, hvs, hget]

/-- C7: for an in-range index, the plain and cuda variants produce exactly
    name==version, where the name is the resolved install name and the
    version is the list element at the index; the http variant produces the
    resolved URL alone, with no name== prefix. -/
theorem install_argument_format :
    (∀ (env : Env) (cuda : String) (idx : Int) (key : String)
       (versions : List VerEntry) (name : String) (vs : List String) (v : String),
       (Package.plain key versions name).get_all_versions env cuda = .ok vs →
       0 ≤ idx → vs.get? idx.toNat = some v →
       (Package.plain key versions name).get_install_string env idx cuda =
         .ok (name ++ "==" ++ v)) ∧
    (∀ (env : Env) (cuda : String) (idx : Int) (key : String)
       (versions : List (String × List VerEntry)) (name : String)
       (vs : List String) (v : String) (nm : String),
       (Package.cuda key versions name).get_all_versions env cuda = .ok vs →
       0 ≤ idx → vs.get? idx.toNat = some v →
       (Package.cuda key versions name).get_name cuda = .ok nm →
       (Package.cuda key versions name).get_install_string env idx cuda =
         .ok (nm ++ "==" ++ v)) ∧
    (∀ (env : Env) (cuda : String) (idx : Int) (key : String)
       (versions : List (String × List String)) (name : String)
       (vs : List String) (v : String),
       (Package.cudaHttp key versions name).get_all_versions env cuda = .ok vs →
       0 ≤ idx → vs.get? idx.toNat = some v →
       (Package.cudaHttp key versions name).get_install_string env idx cuda = .ok v) := by
  refine ⟨?_, ?_, ?_⟩
  · intro env cuda idx key versions name vs v hvs h0 hget
    have hv := get_version_in_range env _ cuda idx vs v hvs h0 hget
    simp only [Package.get_install_string, Package.get_name, hv]
  · intro env cuda idx key versions name vs v nm hvs h0 hget hnm
    have hv := get_version_in_range env _ cuda idx vs v hvs h0 hget
    simp only [Package.get_install_string, hnm, hv]
  · intro env cuda idx key versions name vs v hvs h0 hget
    have hv := get_version_in_range env _ cuda idx vs v hvs h0 hget
    simp only [Package.get_install_string, hv]

/-- C7 witness: the plain foo package at the in-range index 1 yields the
    string foo==2.0, built from its resolved name and the selected version. -/
theorem install_argument_format_witness :
    fooPkg.get_all_versions env0 "90" = .ok ["1.0", "2.0"] ∧
    (["1.0", "2.0"] : List String).get? (1 : Int).toNat = some "2.0" ∧
    fooPkg.get_install_string env0 1 "90" = .ok ("foo" ++ "==" ++ "2.0") :=
  ⟨rfl, rfl,
   install_argument_format.1 env0 "90" 1 "foo" [.str "1.0", .str "2.0"] "foo"
     ["1.0", "2.0"] "2.0" rfl (by decide) rfl⟩

/-! ### C9: constructor-time mapping check. -/

/-- C9: constructing a driver-keyed descriptor (cuda or cuda-http) with a
    non-mapping versions argument fails with the TypeError at construction
    time; constructing with a mapping succeeds and stores the dict and the
    defaulted name. -/
theorem driver_keyed_requires_mapping :
    (∀ (key : String) (name : Option String) (l : List VerEntry),
      mkCudaPackage key (.flat l) name = .error typeErrMsg) ∧
    (∀ (key : String) (name : Option String) (l : List String),
      mkCudaHttpPackage key (.flat l) name = .error typeErrMsg) ∧
    (∀ (key : String) (name : Option String) (d : List (String × List VerEntry)),
      mkCudaPackage key (.dict d) name = .ok (Package.cuda key d (defaultName key name))) ∧
    (∀ (key : String) (name : Option String) (d : List (String × List String)),
      mkCudaHttpPackage key (.dict d) name = .ok (Package.cudaHttp key d (defaultName key name))) :=
  ⟨fun _ _ _ => rfl, fun _ _ _ => rfl, fun _ _ _ => rfl, fun _ _ _ => rfl⟩
